import Mathlib

/-!
Shallow embedding of the client data layer of a messaging web application
(conversations, contacts, stories, messages, chat attachments).
Database tables are lists of rows; the client hooks and handlers are pure
functions on them.  Fresh ids and timestamps, which the hosted database
generates, are passed in as parameters; a fallible gateway write is
modelled by an explicit success flag or by the unique-constraint check the
schema enforces.
-/

/-- First-occurrence deduplication with an accumulator of already seen
elements, mirroring the iteration order of a JS Set. -/
def dedupFirstAux (seen : List Nat) : List Nat → List Nat
  | [] => []
  | x :: xs =>
    if x ∈ seen then dedupFirstAux seen xs
    else x :: dedupFirstAux (x :: seen) xs

/-- JS spread of a Set, keeping the first occurrence of each element. -/
def dedupFirst (l : List Nat) : List Nat :=
  dedupFirstAux [] l

/-- Insert into a list sorted by the Boolean comparator `le`. -/
def insertSorted (le : α → α → Bool) (x : α) : List α → List α
  | [] => [x]
  | y :: ys => if le x y then x :: y :: ys else y :: insertSorted le x ys

/-- Insertion sort by the Boolean comparator `le`; models the ordered
result sets of database queries. -/
def sortBy (le : α → α → Bool) : List α → List α
  | [] => []
  | x :: xs => insertSorted le x (sortBy le xs)

/-- Row of the conversations table (columns the client reads or writes). -/
structure ConvRow where
  id : Nat
  is_group : Bool
  name : Option String
  created_by : Option Nat
  updated_at : Nat
  deriving DecidableEq

/-- Row of the conversation_members table as inserted by the client. -/
structure MemberRow where
  conversation_id : Nat
  user_id : Nat
  is_admin : Bool
  deriving DecidableEq

/-- The slice of the database used by the conversations hook. -/
structure ConvDB where
  conversations : List ConvRow
  members : List MemberRow
  deriving DecidableEq

/-- Result of createConversation: the new conversation id or an error. -/
inductive CreateResult where
  | ok (convId : Nat)
  | err
  deriving DecidableEq

/-- Membership rows built by createConversation: the deduplicated union of
creator and invitees, with the admin flag exactly on the creator. -/
def memberRowsFor (freshId uid : Nat) (memberIds : List Nat) : List MemberRow :=
  (dedupFirst (uid :: memberIds)).map
    (fun i => { conversation_id := freshId, user_id := i, is_admin := i == uid })

/-- createConversation from useConversations: insert the conversation row
(name only for groups), then insert the membership rows.  Either gateway
write can fail (convInsertOk, memInsertOk); a failing membership insert
returns an error and leaves the already inserted conversation row in
place. -/
def createConversation (db : ConvDB) (uid : Nat) (memberIds : List Nat)
    (isGroup : Bool) (name : Option String) (freshId now : Nat)
    (convInsertOk memInsertOk : Bool) : CreateResult × ConvDB :=
  if convInsertOk = false then (CreateResult.err, db)
  else
    let conv : ConvRow :=
      { id := freshId, is_group := isGroup,
        name := if isGroup then name else none,
        created_by := some uid, updated_at := now }
    let db1 : ConvDB := { db with conversations := db.conversations ++ [conv] }
    if memInsertOk = false then (CreateResult.err, db1)
    else (CreateResult.ok freshId,
      { db1 with members := db1.members ++ memberRowsFor freshId uid memberIds })

/-- Conversation ids the user is a member of (first query of
fetchConversations). -/
def userConvIds (db : ConvDB) (u : Nat) : List Nat :=
  (db.members.filter (fun m => m.user_id == u)).map (fun m => m.conversation_id)

/-- fetchConversations: conversations whose id is in the membership set,
ordered by updated_at descending; the later enrichment with members, last
message and counterpart profile is order preserving. -/
def fetchConversations (db : ConvDB) (u : Nat) : List ConvRow :=
  sortBy (fun a b => decide (b.updated_at ≤ a.updated_at))
    (db.conversations.filter (fun c => decide (c.id ∈ userConvIds db u)))

/-- Row of the contacts table: a directional edge with a status. -/
structure ContactRow where
  id : Nat
  user_id : Nat
  contact_id : Nat
  status : String
  deriving DecidableEq

/-- Client-side contact entry: the edge row id together with the id of the
counterpart profile shown to the user (the contact_profile field after the
relabelling merge in fetchContacts). -/
structure ContactEntry where
  rowId : Nat
  counterpart : Nat
  deriving DecidableEq

/-- fetchContacts, accepted section: rows where the user is the initiator,
then rows where the user is the target with the counterpart relabelled
from the initiator profile, merged by concatenation. -/
def fetchAcceptedContacts (contacts : List ContactRow) (me : Nat) :
    List ContactEntry :=
  ((contacts.filter (fun r => r.user_id == me && r.status == "accepted")).map
    (fun r => { rowId := r.id, counterpart := r.contact_id }))
  ++ ((contacts.filter (fun r => r.contact_id == me && r.status == "accepted")).map
    (fun r => { rowId := r.id, counterpart := r.user_id }))

/-- Outcome surfaced to the user by handleSendRequest. -/
inductive SendOutcome where
  | sent
  | alreadyRequested
  | otherError
  deriving DecidableEq

/-- Insert into the contacts table under the UNIQUE(user_id, contact_id)
constraint of the schema: a duplicate ordered pair is rejected with the
unique-violation code 23505 and the table is unchanged. -/
def contactsInsert (contacts : List ContactRow) (row : ContactRow) :
    Except Nat (List ContactRow) :=
  if contacts.any (fun r => r.user_id == row.user_id && r.contact_id == row.contact_id)
  then Except.error 23505
  else Except.ok (contacts ++ [row])

/-- handleSendRequest from AddContactDialog: insert a pending edge and
special-case error code 23505 as an already-requested outcome. -/
def handleSendRequest (contacts : List ContactRow) (me target freshId : Nat) :
    SendOutcome × List ContactRow :=
  match contactsInsert contacts
      { id := freshId, user_id := me, contact_id := target, status := "pending" } with
  | Except.ok cs => (SendOutcome.sent, cs)
  | Except.error 23505 => (SendOutcome.alreadyRequested, contacts)
  | Except.error _ => (SendOutcome.otherError, contacts)

/-- Row of the stories table (columns the stories view uses). -/
structure StoryRow where
  id : Nat
  user_id : Nat
  expires_at : Nat
  created_at : Nat
  deriving DecidableEq

/-- Row of the story_views table as written by the client. -/
structure StoryViewRow where
  story_id : Nat
  viewer_id : Nat
  deriving DecidableEq

/-- One author group of the recent-updates listing. -/
structure GroupedStories where
  userId : Nat
  stories : List StoryRow
  hasViewed : Bool
  deriving DecidableEq

/-- Group a story list by author: authors in order of first occurrence,
stories of each author in list order (the JS object keyed by user_id). -/
def groupStories (l : List StoryRow) : List (Nat × List StoryRow) :=
  (dedupFirst (l.map (fun s => s.user_id))).map
    (fun u => (u, l.filter (fun s => s.user_id == u)))

/-- The stories query of fetchStories: only rows with expires_at strictly
greater than the current time, ordered by created_at descending. -/
def activeStories (stories : List StoryRow) (now : Nat) : List StoryRow :=
  sortBy (fun a b => decide (b.created_at ≤ a.created_at))
    (stories.filter (fun s => decide (now < s.expires_at)))

/-- The current user's own active stories. -/
def myStories (stories : List StoryRow) (me now : Nat) : List StoryRow :=
  (activeStories stories now).filter (fun s => s.user_id == me)

/-- Active stories of all other authors. -/
def otherStories (stories : List StoryRow) (me now : Nat) : List StoryRow :=
  (activeStories stories now).filter (fun s => !(s.user_id == me))

/-- Ids of the other-author stories the current user has viewed (the
story_views query filtered by viewer and story id set). -/
def viewedIdsFor (stories : List StoryRow) (views : List StoryViewRow)
    (me now : Nat) : List Nat :=
  (views.filter (fun v => v.viewer_id == me &&
      decide (v.story_id ∈ (otherStories stories me now).map (fun s => s.id)))).map
    (fun v => v.story_id)

/-- Other-author groups with the all-viewed aggregate. -/
def storyGroups (stories : List StoryRow) (views : List StoryViewRow)
    (me now : Nat) : List GroupedStories :=
  (groupStories (otherStories stories me now)).map
    (fun g => { userId := g.1, stories := g.2,
                hasViewed := g.2.all
                  (fun s => decide (s.id ∈ viewedIdsFor stories views me now)) })

/-- fetchStories from StoriesView: my active stories, and the other-author
groups with groups that still have unviewed stories listed first (the
stable JS sort is a stable partition on the hasViewed flag). -/
def fetchStories (stories : List StoryRow) (views : List StoryViewRow)
    (me now : Nat) : List StoryRow × List GroupedStories :=
  (myStories stories me now,
   (storyGroups stories views me now).filter (fun g => !g.hasViewed)
     ++ (storyGroups stories views me now).filter (fun g => g.hasViewed))

/-- Upsert into story_views with conflict target (story_id, viewer_id): an
existing pair stays a single row, otherwise the row is appended. -/
def upsertView (views : List StoryViewRow) (sid vid : Nat) : List StoryViewRow :=
  if views.any (fun v => v.story_id == sid && v.viewer_id == vid) then views
  else views ++ [{ story_id := sid, viewer_id := vid }]

/-- Mark-viewed effect of StoryViewer: no upsert at all when the story
author is the current user, otherwise the idempotent upsert; the Boolean
reports whether an upsert request was fired at the gateway. -/
def markViewed (views : List StoryViewRow) (currentUser storyOwner storyId : Nat) :
    List StoryViewRow × Bool :=
  if storyOwner == currentUser then (views, false)
  else (upsertView views storyId currentUser, true)

/-- Action taken by goToNext in StoryViewer. -/
inductive NextAction where
  | advance (newIndex : Nat)
  | nextUser
  | close
  deriving DecidableEq

/-- goToNext: advance within the sequence, otherwise invoke the next-user
callback when provided, otherwise close.  JS number arithmetic, hence the
comparison over integers. -/
def goToNext (len idx : Nat) (hasOnNextUser : Bool) : NextAction :=
  if (idx : Int) < (len : Int) - 1 then NextAction.advance (idx + 1)
  else if hasOnNextUser then NextAction.nextUser
  else NextAction.close

/-- Story viewer timer state: the current index and the progress value. -/
structure ViewerState where
  currentIndex : Nat
  progress : Nat
  deriving DecidableEq

/-- Externally visible event of a timer tick. -/
inductive ViewerEvent where
  | nextUser
  | close
  deriving DecidableEq

/-- One firing of the auto-progress interval: progress grows by
100 / (5000 / 100) = 2 per tick; on reaching 100 the tick resets progress
to 0 and performs goToNext. -/
def tick (len : Nat) (hasOnNextUser : Bool) (st : ViewerState) :
    ViewerState × Option ViewerEvent :=
  let newProgress := st.progress + 2
  if 100 ≤ newProgress then
    match goToNext len st.currentIndex hasOnNextUser with
    | NextAction.advance j => ({ currentIndex := j, progress := 0 }, none)
    | NextAction.nextUser => ({ st with progress := 0 }, some ViewerEvent.nextUser)
    | NextAction.close => ({ st with progress := 0 }, some ViewerEvent.close)
  else ({ st with progress := newProgress }, none)

/-- Row of the messages table (columns the message list uses). -/
structure MsgRow where
  id : Nat
  conversation_id : Nat
  content : String
  created_at : Nat
  deriving DecidableEq

/-- fetchMessages from useMessages: the messages of one conversation
ordered by created_at ascending. -/
def fetchMessages (msgs : List MsgRow) (cid : Nat) : List MsgRow :=
  sortBy (fun a b => decide (a.created_at ≤ b.created_at))
    (msgs.filter (fun m => m.conversation_id == cid))

/-- Insert-notification handler of useMessages: fetch the single row with
the notified id and append it to the local list; the single-row query
yields a row only when exactly one matches. -/
def onInsertNotification (state : List MsgRow) (msgs : List MsgRow)
    (newId : Nat) : List MsgRow :=
  match msgs.filter (fun m => m.id == newId) with
  | [m] => state ++ [m]
  | _ => state

/-- handleDeleteMessage from ChatView: delete the row by id; the view then
refetches through fetchMessages. -/
def handleDeleteMessage (msgs : List MsgRow) (mid : Nat) : List MsgRow :=
  msgs.filter (fun m => !(m.id == mid))

/-- Client-side view of a selected file. -/
structure FileMeta where
  name : String
  size : Nat
  deriving DecidableEq

/-- Externally visible effects of the chat-view handlers. -/
inductive ChatEffect where
  | toastError
  | uploadFile (f : FileMeta)
  | insertMessage (content : String)
  deriving DecidableEq

/-- handleFileSelect from ChatView: a file larger than 10 MiB is rejected
client side with only a toast, leaving the selected file unchanged; any
other file becomes the pending attachment. -/
def handleFileSelect (selected : Option FileMeta) (f : FileMeta) :
    Option FileMeta × List ChatEffect :=
  if 10 * 1024 * 1024 < f.size then (selected, [ChatEffect.toastError])
  else (some f, [])

/-- JS String.prototype.trim: strip whitespace from both ends. -/
def trimChars (s : String) : String :=
  String.mk
    (((s.toList.dropWhile Char.isWhitespace).reverse.dropWhile
        Char.isWhitespace).reverse)

/-- handleSend from ChatView: nothing happens without text or attachment;
an attachment is uploaded and the message content falls back to the file
name (or a placeholder) when the text is empty. -/
def handleSend (msg : String) (selected : Option FileMeta) : List ChatEffect :=
  match selected with
  | some f =>
    [ChatEffect.uploadFile f,
     ChatEffect.insertMessage
       (if trimChars msg == "" then (if f.name == "" then "Fichier" else f.name)
        else trimChars msg)]
  | none =>
    if trimChars msg == "" then [] else [ChatEffect.insertMessage (trimChars msg)]

/-- Membership in the deduplication accumulator recursion. -/
theorem mem_dedupFirstAux (l : List Nat) :
    ∀ (seen : List Nat) (a : Nat),
      a ∈ dedupFirstAux seen l ↔ a ∈ l ∧ a ∉ seen := by
  induction l with
  | nil => intro seen a; simp [dedupFirstAux]
  | cons y ys ih =>
    intro seen a
    simp only [dedupFirstAux]
    by_cases hy : y ∈ seen
    · rw [if_pos hy, ih]
      constructor
      · rintro ⟨h1, h2⟩
        exact ⟨List.mem_cons_of_mem y h1, h2⟩
      · rintro ⟨h1, h2⟩
        rcases List.mem_cons.mp h1 with rfl | h1
        · exact absurd hy h2
        · exact ⟨h1, h2⟩
    · rw [if_neg hy]
      constructor
      · intro h
        rcases List.mem_cons.mp h with rfl | h
        · exact ⟨List.mem_cons_self a ys, hy⟩
        · rcases (ih _ _).mp h with ⟨h1, h2⟩
          refine ⟨List.mem_cons_of_mem y h1, fun hc => h2 (List.mem_cons_of_mem y hc)⟩
      · rintro ⟨h1, h2⟩
        rcases List.mem_cons.mp h1 with rfl | h1
        · exact List.mem_cons_self a _
        · by_cases hay : a = y
          · subst hay; exact List.mem_cons_self a _
          · refine List.mem_cons_of_mem y ((ih _ _).mpr ⟨h1, ?_⟩)
            intro hc
            rcases List.mem_cons.mp hc with h | h
            · exact hay h
            · exact h2 h

/-- An element already in the accumulator is never counted. -/
theorem countP_dedupFirstAux_of_seen (l : List Nat) (seen : List Nat) (x : Nat)
    (hx : x ∈ seen) :
    (dedupFirstAux seen l).countP (fun i => i == x) = 0 := by
  rw [List.countP_eq_zero]
  intro a ha hax
  have hax : a = x := by simpa using hax
  subst hax
  exact ((mem_dedupFirstAux l seen a).mp ha).2 hx

/-- Each retained element is counted exactly once by the deduplication. -/
theorem countP_dedupFirstAux_of_mem (l : List Nat) :
    ∀ (seen : List Nat) (x : Nat), x ∈ l → x ∉ seen →
      (dedupFirstAux seen l).countP (fun i => i == x) = 1 := by
  induction l with
  | nil => intro seen x hx; cases hx
  | cons y ys ih =>
    intro seen x hx hseen
    simp only [dedupFirstAux]
    by_cases hy : y ∈ seen
    · rw [if_pos hy]
      rcases List.mem_cons.mp hx with rfl | hx
      · exact absurd hy hseen
      · exact ih seen x hx hseen
    · rw [if_neg hy, List.countP_cons]
      by_cases hxy : x = y
      · subst hxy
        have h0 : (dedupFirstAux (x :: seen) ys).countP (fun i => i == x) = 0 :=
          countP_dedupFirstAux_of_seen ys (x :: seen) x (List.mem_cons_self x seen)
        simp [h0]
      · have hx' : x ∈ ys := by
          rcases List.mem_cons.mp hx with h | h
          · exact absurd h hxy
          · exact h
        have hseen' : x ∉ y :: seen := by
          intro hc
          rcases List.mem_cons.mp hc with h | h
          · exact hxy h
          · exact hseen h
        have h1 := ih (y :: seen) x hx' hseen'
        have hyx : (y == x) = false := by
          simp [Ne.symm hxy]
        simp [h1, hyx]

/-- Membership is preserved by sorted insertion. -/
theorem mem_insertSorted (le : α → α → Bool) (x a : α) (l : List α) :
    a ∈ insertSorted le x l ↔ a = x ∨ a ∈ l := by
  induction l with
  | nil => simp [insertSorted]
  | cons y ys ih =>
    simp only [insertSorted]
    by_cases h : le x y = true
    · simp only [if_pos h, List.mem_cons]
    · simp only [if_neg h, List.mem_cons, ih]
      tauto

/-- Membership is preserved by the insertion sort. -/
theorem mem_sortBy (le : α → α → Bool) (a : α) (l : List α) :
    a ∈ sortBy le l ↔ a ∈ l := by
  induction l with
  | nil => simp [sortBy]
  | cons x xs ih =>
    simp only [sortBy, mem_insertSorted, ih, List.mem_cons]

/-- Sorted insertion preserves pairwise sortedness of a total transitive
Boolean comparator. -/
theorem pairwise_insertSorted (le : α → α → Bool)
    (htot : ∀ a b, le a b = true ∨ le b a = true)
    (htrans : ∀ a b c, le a b = true → le b c = true → le a c = true)
    (x : α) (l : List α) (hl : l.Pairwise (fun a b => le a b = true)) :
    (insertSorted le x l).Pairwise (fun a b => le a b = true) := by
  induction l with
  | nil => simp [insertSorted]
  | cons y ys ih =>
    rw [List.pairwise_cons] at hl
    obtain ⟨hy, hys⟩ := hl
    simp only [insertSorted]
    by_cases h : le x y = true
    · rw [if_pos h]
      refine List.Pairwise.cons ?_ (List.Pairwise.cons hy hys)
      intro z hz
      rcases List.mem_cons.mp hz with rfl | hz'
      · exact h
      · exact htrans x y z h (hy z hz')
    · rw [if_neg h]
      refine List.Pairwise.cons ?_ (ih hys)
      intro z hz
      rcases (mem_insertSorted le x z ys).mp hz with rfl | hz'
      · rcases htot z y with h1 | h1
        · exact absurd h1 h
        · exact h1
      · exact hy z hz'

/-- The insertion sort output is pairwise sorted. -/
theorem pairwise_sortBy (le : α → α → Bool)
    (htot : ∀ a b, le a b = true ∨ le b a = true)
    (htrans : ∀ a b c, le a b = true → le b c = true → le a c = true)
    (l : List α) : (sortBy le l).Pairwise (fun a b => le a b = true) := by
  induction l with
  | nil => simp [sortBy]
  | cons x xs ih => exact pairwise_insertSorted le htot htrans x _ ih

/-- A strict maximum of the input is the head of the descending sort. -/
theorem head_sortByDesc (key : α → Nat) (l : List α) (x : α)
    (hx : x ∈ l) (hmax : ∀ y ∈ l, y ≠ x → key y < key x) :
    (sortBy (fun a b => decide (key b ≤ key a)) l).head? = some x := by
  have htot : ∀ a b : α,
      decide (key b ≤ key a) = true ∨ decide (key a ≤ key b) = true := by
    intro a b
    rcases Nat.le_total (key b) (key a) with h | h
    · exact Or.inl (decide_eq_true h)
    · exact Or.inr (decide_eq_true h)
  have htrans : ∀ a b c : α, decide (key b ≤ key a) = true →
      decide (key c ≤ key b) = true → decide (key c ≤ key a) = true := by
    intro a b c h1 h2
    exact decide_eq_true (Nat.le_trans (of_decide_eq_true h2) (of_decide_eq_true h1))
  have hmem : x ∈ sortBy (fun a b => decide (key b ≤ key a)) l :=
    (mem_sortBy _ x l).mpr hx
  have hpw := pairwise_sortBy (fun a b => decide (key b ≤ key a)) htot htrans l
  cases hs : sortBy (fun a b => decide (key b ≤ key a)) l with
  | nil => rw [hs] at hmem; cases hmem
  | cons h t =>
    rw [hs] at hmem hpw
    have hhl : h ∈ l := by
      have : h ∈ sortBy (fun a b => decide (key b ≤ key a)) l := by
        rw [hs]; exact List.mem_cons_self h t
      exact (mem_sortBy _ h l).mp this
    by_cases hhx : h = x
    · simp [hhx]
    · have h1 : key h < key x := hmax h hhl hhx
      have hxt : x ∈ t := by
        rcases List.mem_cons.mp hmem with h2 | h2
        · exact absurd h2.symm hhx
        · exact h2
      have h2 := (List.pairwise_cons.mp hpw).1 x hxt
      have h3 : key x ≤ key h := of_decide_eq_true h2
      omega

/-- Counting over a mapped list counts the composed predicate. -/
theorem countP_map_local (f : α → β) (p : β → Bool) (l : List α) :
    (l.map f).countP p = l.countP (fun a => p (f a)) := by
  induction l with
  | nil => rfl
  | cons x xs ih => simp [List.countP_cons, ih]

/-- Counting over a filtered list counts the conjunction. -/
theorem countP_filter_local (p q : α → Bool) (l : List α) :
    (l.filter q).countP p = l.countP (fun a => p a && q a) := by
  induction l with
  | nil => rfl
  | cons x xs ih =>
    by_cases h : q x = true
    · simp [List.filter_cons, h, List.countP_cons, ih]
    · have h' : q x = false := by
        cases hq : q x
        · rfl
        · exact absurd hq h
      simp [List.filter_cons, h', List.countP_cons, ih]

/-- Counting is extensional in the predicate. -/
theorem countP_ext_local (p q : α → Bool) (l : List α) (h : ∀ a, p a = q a) :
    l.countP p = l.countP q := by
  induction l with
  | nil => rfl
  | cons x xs ih => simp [List.countP_cons, ih, h]

/-- A disjunction of disjoint predicates counts additively. -/
theorem countP_or_disjoint (p q : α → Bool) (l : List α)
    (h : ∀ a, p a = true → q a = true → False) :
    l.countP (fun a => p a || q a) = l.countP p + l.countP q := by
  induction l with
  | nil => rfl
  | cons x xs ih =>
    simp only [List.countP_cons, ih]
    cases hp : p x with
    | true =>
      cases hq : q x with
      | true => exact absurd (h x hp hq) (fun f => f)
      | false => simp [hp, hq]; omega
    | false =>
      cases hq : q x with
      | true => simp [hp, hq]; omega
      | false => simp [hp, hq]

/-- C10: a chat attachment larger than 10*1024*1024 bytes is rejected
client side before any network call: no upload and no message-insert
effect is fired and the selected-file state stays unchanged (unset when it
was unset), and a subsequent send with empty text does nothing; a file at
or below that size becomes the pending attachment. -/
theorem C10_attachment_size_limit (selected : Option FileMeta) (f : FileMeta) :
    (10 * 1024 * 1024 < f.size →
      (handleFileSelect selected f).1 = selected ∧
      (handleFileSelect none f).1 = none ∧
      (∀ e ∈ (handleFileSelect selected f).2,
        (∀ g, e ≠ ChatEffect.uploadFile g) ∧
        (∀ s, e ≠ ChatEffect.insertMessage s)) ∧
      handleSend "" (handleFileSelect none f).1 = []) ∧
    (f.size ≤ 10 * 1024 * 1024 →
      (handleFileSelect selected f).1 = some f ∧
      (handleFileSelect selected f).2 = []) := by
  constructor
  · intro h
    refine ⟨by simp [handleFileSelect, h], by simp [handleFileSelect, h], ?_, ?_⟩
    · intro e he
      simp only [handleFileSelect, if_pos h, List.mem_singleton] at he
      subst he
      constructor
      · intro g hc; cases hc
      · intro s hc; cases hc
    · simp only [handleFileSelect, if_pos h, handleSend]
      decide
  · intro h
    have h' : ¬ (10 * 1024 * 1024 < f.size) := by omega
    simp [handleFileSelect, h']

/-- C10 witness: a file one byte over the limit is rejected and a file at
the limit is accepted. -/
theorem C10_attachment_size_limit_witness :
    (10 * 1024 * 1024 < (10485761 : Nat) ∧
      (handleFileSelect (none : Option FileMeta)
        { name := "big", size := 10485761 }).1 = none) ∧
    ((10485760 : Nat) ≤ 10 * 1024 * 1024 ∧
      (handleFileSelect (none : Option FileMeta)
        { name := "ok", size := 10485760 }).1
        = some { name := "ok", size := 10485760 }) := by
  refine ⟨⟨by decide, ?_⟩, ⟨by decide, ?_⟩⟩
  · exact ((C10_attachment_size_limit none { name := "big", size := 10485761 }).1
      (by decide)).2.1
  · exact ((C10_attachment_size_limit none { name := "ok", size := 10485760 }).2
      (by decide)).1

/-- C8: when progress reaches 100 the tick advances the index by one and
resets progress to 0 while stories remain in the sequence; at the last
story it emits the next-user event when the callback is provided, and the
close event otherwise, for every sequence length and index. -/
theorem C8_viewer_progression (len idx p : Nat) (hasNext : Bool) (hp : 98 ≤ p) :
    (idx + 1 < len →
      tick len hasNext { currentIndex := idx, progress := p }
        = ({ currentIndex := idx + 1, progress := 0 }, none)) ∧
    (idx + 1 = len → hasNext = true →
      tick len hasNext { currentIndex := idx, progress := p }
        = ({ currentIndex := idx, progress := 0 }, some ViewerEvent.nextUser)) ∧
    (idx + 1 = len → hasNext = false →
      tick len hasNext { currentIndex := idx, progress := p }
        = ({ currentIndex := idx, progress := 0 }, some ViewerEvent.close)) := by
  have h100 : 100 ≤ p + 2 := by omega
  refine ⟨?_, ?_, ?_⟩
  · intro h
    have hlt : (idx : Int) < (len : Int) - 1 := by omega
    simp [tick, goToNext, h100, hlt]
  · intro h hn
    have hnlt : ¬ ((idx : Int) < (len : Int) - 1) := by omega
    simp [tick, goToNext, h100, hnlt, hn]
  · intro h hn
    have hnlt : ¬ ((idx : Int) < (len : Int) - 1) := by omega
    simp [tick, goToNext, h100, hnlt, hn]

/-- C8 witness: with one story and a full progress bar, a tick without the
callback closes the viewer, and with two stories it advances. -/
theorem C8_viewer_progression_witness :
    (98 ≤ 98 ∧
      tick 1 false { currentIndex := 0, progress := 98 }
        = ({ currentIndex := 0, progress := 0 }, some ViewerEvent.close)) ∧
    (98 ≤ 98 ∧
      tick 2 true { currentIndex := 0, progress := 98 }
        = ({ currentIndex := 1, progress := 0 }, none)) := by
  refine ⟨⟨by decide, ?_⟩, ⟨by decide, ?_⟩⟩
  · exact (C8_viewer_progression 1 0 98 false (by decide)).2.2 (by decide) (by decide)
  · exact (C8_viewer_progression 2 0 98 true (by decide)).1 (by decide)

/-- C4: inserting a contact request for an ordered pair that already has a
row yields the unique-violation code 23505, special-cased as the
already-requested outcome, and exactly one row for the pair remains. -/
theorem C4_duplicate_contact_request (contacts : List ContactRow)
    (me target freshId : Nat)
    (hone : contacts.countP
      (fun r => r.user_id == me && r.contact_id == target) = 1) :
    (handleSendRequest contacts me target freshId).1
        = SendOutcome.alreadyRequested ∧
    (handleSendRequest contacts me target freshId).2 = contacts ∧
    (handleSendRequest contacts me target freshId).2.countP
      (fun r => r.user_id == me && r.contact_id == target) = 1 := by
  have hpos : 0 < contacts.countP
      (fun r => r.user_id == me && r.contact_id == target) := by omega
  have hany : contacts.any
      (fun r => r.user_id == me && r.contact_id == target) = true := by
    rw [List.any_eq_true]
    obtain ⟨a, ha, hpa⟩ := List.countP_pos_iff.mp hpos
    exact ⟨a, ha, hpa⟩
  simp [handleSendRequest, contactsInsert, hany, hone]

/-- C4 witness: a second request for the same ordered pair conflicts. -/
theorem C4_duplicate_contact_request_witness :
    ([({ id := 0, user_id := 1, contact_id := 2, status := "pending" } :
        ContactRow)].countP
      (fun r => r.user_id == 1 && r.contact_id == 2) = 1) ∧
    (handleSendRequest
        [{ id := 0, user_id := 1, contact_id := 2, status := "pending" }] 1 2 9).1
      = SendOutcome.alreadyRequested := by
  refine ⟨by decide, ?_⟩
  exact (C4_duplicate_contact_request
    [{ id := 0, user_id := 1, contact_id := 2, status := "pending" }] 1 2 9
    (by decide)).1

/-- C5: marking a story viewed is idempotent per viewer: the upsert keyed
on the unique (story, viewer) pair leaves exactly one row however many
times the story is viewed, and viewing an own story fires no upsert. -/
theorem C5_story_view_upsert_idempotent (views : List StoryViewRow)
    (u owner sid : Nat)
    (huniq : views.countP
      (fun v => v.story_id == sid && v.viewer_id == u) ≤ 1) :
    markViewed views u u sid = (views, false) ∧
    (owner ≠ u →
      (markViewed views u owner sid).1.countP
        (fun v => v.story_id == sid && v.viewer_id == u) = 1 ∧
      markViewed (markViewed views u owner sid).1 u owner sid
        = ((markViewed views u owner sid).1, true)) := by
  constructor
  · simp [markViewed]
  · intro how
    have howb : (owner == u) = false := by
      cases h : owner == u
      · rfl
      · exact absurd (by simpa using h) how
    have hmv : markViewed views u owner sid = (upsertView views sid u, true) := by
      simp [markViewed, howb]
    by_cases hany : views.any
        (fun v => v.story_id == sid && v.viewer_id == u) = true
    · have hup : upsertView views sid u = views := by
        simp [upsertView, hany]
      have hcnt : views.countP
          (fun v => v.story_id == sid && v.viewer_id == u) = 1 := by
        obtain ⟨a, ha, hpa⟩ := List.any_eq_true.mp hany
        have hpos : 0 < views.countP
            (fun v => v.story_id == sid && v.viewer_id == u) := by
          rw [List.countP_pos_iff]
          exact ⟨a, ha, hpa⟩
        omega
      refine ⟨by rw [hmv]; simp [hup, hcnt], ?_⟩
      rw [hmv]
      simp [markViewed, howb, upsertView, hany, hup]
    · have hanyf : views.any
          (fun v => v.story_id == sid && v.viewer_id == u) = false := by
        cases h : views.any (fun v => v.story_id == sid && v.viewer_id == u)
        · rfl
        · exact absurd h hany
      have hup : upsertView views sid u
          = views ++ [{ story_id := sid, viewer_id := u }] := by
        simp [upsertView, hanyf]
      have hz : views.countP
          (fun v => v.story_id == sid && v.viewer_id == u) = 0 := by
        rw [List.countP_eq_zero]
        intro a ha hpa
        exact hany (List.any_eq_true.mpr ⟨a, ha, hpa⟩)
      have hany2 : (views ++ [({ story_id := sid, viewer_id := u } :
          StoryViewRow)]).any
          (fun v => v.story_id == sid && v.viewer_id == u) = true := by
        rw [List.any_eq_true]
        exact ⟨{ story_id := sid, viewer_id := u },
          List.mem_append_right _ (List.mem_cons_self _ _), by simp⟩
      refine ⟨?_, ?_⟩
      · rw [hmv]
        simp [hup, List.countP_append, hz, List.countP_cons]
      · rw [hmv]
        have hnotc : ¬ ((owner == u) = true) := by
          rw [howb]; exact Bool.false_ne_true
        show markViewed (upsertView views sid u) u owner sid
            = (upsertView views sid u, true)
        unfold markViewed
        rw [if_neg hnotc, hup]
        unfold upsertView
        rw [if_pos hany2]

/-- C5 witness: a fresh view inserts exactly one row, a repeat view keeps
it, and the own story fires no upsert. -/
theorem C5_story_view_upsert_idempotent_witness :
    (([] : List StoryViewRow).countP
      (fun v => v.story_id == 3 && v.viewer_id == 1) ≤ 1) ∧
    ((2 : Nat) ≠ 1) ∧
    ((markViewed [] 1 2 3).1.countP
      (fun v => v.story_id == 3 && v.viewer_id == 1) = 1 ∧
      markViewed (markViewed [] 1 2 3).1 1 2 3 = ((markViewed [] 1 2 3).1, true)) := by
  refine ⟨by decide, by decide, ?_⟩
  exact (C5_story_view_upsert_idempotent [] 1 2 3 (by decide)).2 (by decide)

/-- C2: createConversation inserts the conversation row first, then the
membership rows for the deduplicated union of creator and invitees with
the creator appearing exactly once; a failing membership insert returns an
error and leaves the already inserted conversation row in place, with no
membership rows written. -/
theorem C2_create_conversation_no_rollback (db : ConvDB) (uid : Nat)
    (memberIds : List Nat) (isGroup : Bool) (name : Option String)
    (freshId now : Nat) :
    ((createConversation db uid memberIds isGroup name freshId now true true).2.members
        = db.members ++ memberRowsFor freshId uid memberIds) ∧
    ((memberRowsFor freshId uid memberIds).countP
        (fun m => m.user_id == uid) = 1) ∧
    ((createConversation db uid memberIds isGroup name freshId now true false).1
        = CreateResult.err) ∧
    ((createConversation db uid memberIds isGroup name freshId now true false).2.conversations
        = db.conversations ++
          [{ id := freshId, is_group := isGroup,
             name := if isGroup then name else none,
             created_by := some uid, updated_at := now }]) ∧
    ((createConversation db uid memberIds isGroup name freshId now true false).2.members
        = db.members) := by
  refine ⟨?_, ?_, ?_, ?_, ?_⟩
  · simp [createConversation]
  · rw [memberRowsFor, countP_map_local]
    exact countP_dedupFirstAux_of_mem (uid :: memberIds) [] uid
      (List.mem_cons_self uid memberIds) (List.not_mem_nil uid)
  · simp [createConversation]
  · simp [createConversation]
  · simp [createConversation]

/-- C6: a story whose expiry timestamp is not strictly in the future at
fetch time is excluded from my stories and from every group of the
recent-updates listing, even though its row still exists. -/
theorem C6_expired_story_excluded (stories : List StoryRow)
    (views : List StoryViewRow) (me now : Nat) (s : StoryRow)
    (hs : s.expires_at ≤ now) :
    s ∉ (fetchStories stories views me now).1 ∧
    ∀ g ∈ (fetchStories stories views me now).2, s ∉ g.stories := by
  have hactive : s ∉ activeStories stories now := by
    intro hin
    rw [activeStories, mem_sortBy] at hin
    have h2 := (List.mem_filter.mp hin).2
    have h3 : now < s.expires_at := of_decide_eq_true h2
    omega
  constructor
  · intro hin
    have hin' : s ∈ myStories stories me now := hin
    exact hactive (List.mem_filter.mp hin').1
  · intro g hg hsg
    have hg2 : g ∈ (storyGroups stories views me now).filter
        (fun x => !x.hasViewed)
        ++ (storyGroups stories views me now).filter
        (fun x => x.hasViewed) := hg
    have hg' : g ∈ storyGroups stories views me now := by
      rcases List.mem_append.mp hg2 with h | h
      · exact (List.mem_filter.mp h).1
      · exact (List.mem_filter.mp h).1
    rw [storyGroups] at hg'
    obtain ⟨pr, hpr, rfl⟩ := List.mem_map.mp hg'
    rw [groupStories] at hpr
    obtain ⟨u, hu, rfl⟩ := List.mem_map.mp hpr
    have hso : s ∈ otherStories stories me now := (List.mem_filter.mp hsg).1
    rw [otherStories] at hso
    exact hactive (List.mem_filter.mp hso).1

/-- C6 witness: an expired story row is absent from both listing parts. -/
theorem C6_expired_story_excluded_witness :
    (({ id := 1, user_id := 2, expires_at := 3, created_at := 0 } :
        StoryRow).expires_at ≤ 5) ∧
    ({ id := 1, user_id := 2, expires_at := 3, created_at := 0 } : StoryRow) ∉
      (fetchStories [{ id := 1, user_id := 2, expires_at := 3, created_at := 0 }]
        [] 1 5).1 := by
  refine ⟨by decide, ?_⟩
  exact (C6_expired_story_excluded
    [{ id := 1, user_id := 2, expires_at := 3, created_at := 0 }] [] 1 5
    { id := 1, user_id := 2, expires_at := 3, created_at := 0 } (by decide)).1

/-- C7: an author group's all-viewed aggregate in the stories listing is
true iff every story of that group has a view row for the current user. -/
theorem C7_group_has_viewed_iff (stories : List StoryRow)
    (views : List StoryViewRow) (me now : Nat) (g : GroupedStories)
    (hg : g ∈ (fetchStories stories views me now).2) :
    (g.hasViewed = true ↔
      ∀ s ∈ g.stories, ∃ v ∈ views, v.story_id = s.id ∧ v.viewer_id = me) := by
  have hg2 : g ∈ (storyGroups stories views me now).filter
      (fun x => !x.hasViewed)
      ++ (storyGroups stories views me now).filter
      (fun x => x.hasViewed) := hg
  have hg' : g ∈ storyGroups stories views me now := by
    rcases List.mem_append.mp hg2 with h | h
    · exact (List.mem_filter.mp h).1
    · exact (List.mem_filter.mp h).1
  rw [storyGroups] at hg'
  obtain ⟨pr, hpr, rfl⟩ := List.mem_map.mp hg'
  rw [groupStories] at hpr
  obtain ⟨u, hu, rfl⟩ := List.mem_map.mp hpr
  simp only [List.all_eq_true, decide_eq_true_eq]
  constructor
  · intro h s hs
    have hsid : s.id ∈ viewedIdsFor stories views me now := h s hs
    rw [viewedIdsFor] at hsid
    obtain ⟨v, hv, hveq⟩ := List.mem_map.mp hsid
    have hv' := List.mem_filter.mp hv
    have hsplit := hv'.2
    rw [Bool.and_eq_true] at hsplit
    exact ⟨v, hv'.1, hveq, by simpa using hsplit.1⟩
  · intro h s hs
    obtain ⟨v, hv, hvs, hvm⟩ := h s hs
    rw [viewedIdsFor]
    refine List.mem_map.mpr ⟨v, List.mem_filter.mpr ⟨hv, ?_⟩, hvs⟩
    rw [Bool.and_eq_true]
    refine ⟨by simp [hvm], decide_eq_true ?_⟩
    rw [hvs]
    have hs' : s ∈ otherStories stories me now := (List.mem_filter.mp hs).1
    exact List.mem_map.mpr ⟨s, hs', rfl⟩

/-- C7 witness: a group whose single story has a view row for the current
user carries a true all-viewed aggregate. -/
theorem C7_group_has_viewed_iff_witness :
    (({ userId := 2, stories := [{ id := 1, user_id := 2, expires_at := 10, created_at := 5 }], hasViewed := true } : GroupedStories) ∈
      (fetchStories [{ id := 1, user_id := 2, expires_at := 10, created_at := 5 }]
        [{ story_id := 1, viewer_id := 1 }] 1 3).2) ∧
    (({ userId := 2, stories := [{ id := 1, user_id := 2, expires_at := 10, created_at := 5 }], hasViewed := true } : GroupedStories).hasViewed = true ↔
      ∀ s ∈ ({ userId := 2, stories := [{ id := 1, user_id := 2, expires_at := 10, created_at := 5 }], hasViewed := true } : GroupedStories).stories,
        ∃ v ∈ [({ story_id := 1, viewer_id := 1 } : StoryViewRow)],
          v.story_id = s.id ∧ v.viewer_id = 1) := by
  refine ⟨by decide, ?_⟩
  exact C7_group_has_viewed_iff
    [{ id := 1, user_id := 2, expires_at := 10, created_at := 5 }]
    [{ story_id := 1, viewer_id := 1 }] 1 3
    { userId := 2,
      stories := [{ id := 1, user_id := 2, expires_at := 10, created_at := 5 }],
      hasViewed := true } (by decide)

/-- C3: when an accepted contact pair is stored as exactly one directional
row, fetching the contact list from either session yields the counterpart
profile exactly once, whichever party initiated the request. -/
theorem C3_accepted_pair_counterpart_once (contacts : List ContactRow)
    (a b : Nat) (hab : a ≠ b)
    (hone : contacts.countP (fun r =>
      (r.user_id == a && r.contact_id == b && r.status == "accepted") ||
      (r.user_id == b && r.contact_id == a && r.status == "accepted")) = 1) :
    (fetchAcceptedContacts contacts a).countP (fun e => e.counterpart == b) = 1 ∧
    (fetchAcceptedContacts contacts b).countP (fun e => e.counterpart == a) = 1 := by
  have hdisj : ∀ r : ContactRow,
      (r.user_id == a && r.contact_id == b && r.status == "accepted") = true →
      (r.user_id == b && r.contact_id == a && r.status == "accepted") = true →
      False := by
    intro r h1 h2
    rw [Bool.and_eq_true, Bool.and_eq_true] at h1 h2
    have e1 : r.user_id = a := by simpa using h1.1.1
    have e2 : r.user_id = b := by simpa using h2.1.1
    exact hab (e1.symm.trans e2)
  have hsum := countP_or_disjoint
    (fun r => r.user_id == a && r.contact_id == b && r.status == "accepted")
    (fun r => r.user_id == b && r.contact_id == a && r.status == "accepted")
    contacts hdisj
  rw [hone] at hsum
  have hA : (fetchAcceptedContacts contacts a).countP (fun e => e.counterpart == b)
      = contacts.countP
          (fun r => r.user_id == a && r.contact_id == b && r.status == "accepted")
        + contacts.countP
          (fun r => r.user_id == b && r.contact_id == a && r.status == "accepted") := by
    rw [fetchAcceptedContacts, List.countP_append, countP_map_local,
        countP_map_local, countP_filter_local, countP_filter_local]
    congr 1
    · apply countP_ext_local
      intro r
      cases h1 : r.user_id == a <;> cases h2 : r.contact_id == b <;>
        cases h3 : r.status == "accepted" <;> simp [h1, h2, h3]
    · apply countP_ext_local
      intro r
      cases h1 : r.user_id == b <;> cases h2 : r.contact_id == a <;>
        cases h3 : r.status == "accepted" <;> simp [h1, h2, h3]
  have hB : (fetchAcceptedContacts contacts b).countP (fun e => e.counterpart == a)
      = contacts.countP
          (fun r => r.user_id == b && r.contact_id == a && r.status == "accepted")
        + contacts.countP
          (fun r => r.user_id == a && r.contact_id == b && r.status == "accepted") := by
    rw [fetchAcceptedContacts, List.countP_append, countP_map_local,
        countP_map_local, countP_filter_local, countP_filter_local]
    congr 1
    · apply countP_ext_local
      intro r
      cases h1 : r.user_id == b <;> cases h2 : r.contact_id == a <;>
        cases h3 : r.status == "accepted" <;> simp [h1, h2, h3]
    · apply countP_ext_local
      intro r
      cases h1 : r.user_id == a <;> cases h2 : r.contact_id == b <;>
        cases h3 : r.status == "accepted" <;> simp [h1, h2, h3]
  constructor
  · rw [hA]; omega
  · rw [hB]; omega

/-- C3 witness: a single accepted row initiated by user 1 towards user 2
yields the counterpart once in both sessions. -/
theorem C3_accepted_pair_counterpart_once_witness :
    ((1 : Nat) ≠ 2) ∧
    ([({ id := 0, user_id := 1, contact_id := 2, status := "accepted" } : ContactRow)].countP
      (fun r =>
        (r.user_id == 1 && r.contact_id == 2 && r.status == "accepted") ||
        (r.user_id == 2 && r.contact_id == 1 && r.status == "accepted")) = 1) ∧
    ((fetchAcceptedContacts
        [{ id := 0, user_id := 1, contact_id := 2, status := "accepted" }] 1).countP
      (fun e => e.counterpart == 2) = 1 ∧
    (fetchAcceptedContacts
        [{ id := 0, user_id := 1, contact_id := 2, status := "accepted" }] 2).countP
      (fun e => e.counterpart == 1) = 1) := by
  refine ⟨by decide, by decide, ?_⟩
  exact C3_accepted_pair_counterpart_once
    [{ id := 0, user_id := 1, contact_id := 2, status := "accepted" }] 1 2
    (by decide) (by decide)

/-- C9 counterexample: the claim that the local message list is never
pruned fails on the delete flow: after handleDeleteMessage and the refetch
it triggers, a message that was in the list is gone. -/
theorem C9_counterexample :
    (({ id := 2, conversation_id := 1, content := "b", created_at := 2 } : MsgRow) ∈
      fetchMessages [{ id := 1, conversation_id := 1, content := "a", created_at := 1 }, { id := 2, conversation_id := 1, content := "b", created_at := 2 }] 1) ∧
    (({ id := 2, conversation_id := 1, content := "b", created_at := 2 } : MsgRow) ∉
      fetchMessages (handleDeleteMessage [{ id := 1, conversation_id := 1, content := "a", created_at := 1 }, { id := 2, conversation_id := 1, content := "b", created_at := 2 }] 2) 1) := by
  decide

/-- C9 amended: the per-conversation list is fetched ascending by creation
time and scoped to the conversation; an insert notification appends at
most the single notified row at the end, neither reordering nor pruning;
the delete flow however refetches after the delete, so the deleted id no
longer appears in the list. -/
theorem C9_message_log_amended (msgs state : List MsgRow) (cid mid newId : Nat) :
    (fetchMessages msgs cid).Pairwise
      (fun m1 m2 => m1.created_at ≤ m2.created_at) ∧
    (∀ m ∈ fetchMessages msgs cid, m.conversation_id = cid) ∧
    ((∃ m, m ∈ msgs ∧ m.id = newId ∧
        onInsertNotification state msgs newId = state ++ [m]) ∨
      onInsertNotification state msgs newId = state) ∧
    (∀ m ∈ fetchMessages (handleDeleteMessage msgs mid) cid, m.id ≠ mid) := by
  refine ⟨?_, ?_, ?_, ?_⟩
  · have htot : ∀ m1 m2 : MsgRow,
        decide (m1.created_at ≤ m2.created_at) = true ∨
        decide (m2.created_at ≤ m1.created_at) = true := by
      intro m1 m2
      rcases Nat.le_total m1.created_at m2.created_at with h | h
      · exact Or.inl (decide_eq_true h)
      · exact Or.inr (decide_eq_true h)
    have htrans : ∀ m1 m2 m3 : MsgRow,
        decide (m1.created_at ≤ m2.created_at) = true →
        decide (m2.created_at ≤ m3.created_at) = true →
        decide (m1.created_at ≤ m3.created_at) = true := by
      intro m1 m2 m3 h1 h2
      exact decide_eq_true
        (Nat.le_trans (of_decide_eq_true h1) (of_decide_eq_true h2))
    have hpw := pairwise_sortBy
      (fun m1 m2 : MsgRow => decide (m1.created_at ≤ m2.created_at)) htot htrans
      (msgs.filter (fun m => m.conversation_id == cid))
    exact List.Pairwise.imp (fun h => of_decide_eq_true h) hpw
  · intro m hm
    rw [fetchMessages, mem_sortBy] at hm
    have h2 := (List.mem_filter.mp hm).2
    simpa using h2
  · rcases hf : msgs.filter (fun m => m.id == newId) with _ | ⟨m, rest⟩
    · right
      unfold onInsertNotification
      rw [hf]
    · rcases rest with _ | ⟨m2, rest2⟩
      · left
        have hmf : m ∈ msgs.filter (fun m => m.id == newId) := by
          rw [hf]; exact List.mem_cons_self m []
        refine ⟨m, (List.mem_filter.mp hmf).1, ?_, ?_⟩
        · simpa using (List.mem_filter.mp hmf).2
        · unfold onInsertNotification
          rw [hf]
      · right
        unfold onInsertNotification
        rw [hf]
  · intro m hm
    rw [fetchMessages, mem_sortBy] at hm
    have h1 := (List.mem_filter.mp hm).1
    rw [handleDeleteMessage] at h1
    have h2 := (List.mem_filter.mp h1).2
    simpa using h2

/-- C9 amended witness: a fetched message belongs to the conversation it
was fetched for. -/
theorem C9_message_log_amended_witness :
    (({ id := 1, conversation_id := 1, content := "a", created_at := 1 } : MsgRow) ∈
      fetchMessages [{ id := 1, conversation_id := 1, content := "a", created_at := 1 }] 1) ∧
    ({ id := 1, conversation_id := 1, content := "a", created_at := 1 } : MsgRow).conversation_id = 1 := by
  refine ⟨by decide, ?_⟩
  exact (C9_message_log_amended
    [{ id := 1, conversation_id := 1, content := "a", created_at := 1 }] [] 1 1 1).2.1
    { id := 1, conversation_id := 1, content := "a", created_at := 1 } (by decide)

/-- C1: creating a one-to-one conversation with a distinct user produces
exactly one new conversation row with no name, exactly two membership rows
with the creator as the only admin, and the new conversation sorts first
in the conversation lists of both members. -/
theorem C1_one_to_one_conversation (db : ConvDB) (A B freshId now : Nat)
    (hAB : A ≠ B)
    (hnow : ∀ c ∈ db.conversations, c.updated_at < now) :
    (createConversation db A [B] false none freshId now true true).1
        = CreateResult.ok freshId ∧
    (createConversation db A [B] false none freshId now true true).2.conversations
        = db.conversations ++ [{ id := freshId, is_group := false, name := none, created_by := some A, updated_at := now }] ∧
    (createConversation db A [B] false none freshId now true true).2.members
        = db.members ++ [{ conversation_id := freshId, user_id := A, is_admin := true }, { conversation_id := freshId, user_id := B, is_admin := false }] ∧
    (fetchConversations (createConversation db A [B] false none freshId now true true).2 A).head?
        = some { id := freshId, is_group := false, name := none, created_by := some A, updated_at := now } ∧
    (fetchConversations (createConversation db A [B] false none freshId now true true).2 B).head?
        = some { id := freshId, is_group := false, name := none, created_by := some A, updated_at := now } := by
  have hBA : B ≠ A := Ne.symm hAB
  have hdedup : dedupFirst [A, B] = [A, B] := by
    rw [dedupFirst]
    simp [dedupFirstAux, hBA]
  have hAA : (A == A) = true := by simp
  have hBAf : (B == A) = false := by
    cases h : B == A
    · rfl
    · exact absurd (by simpa using h) hBA
  have hrows : memberRowsFor freshId A [B]
      = [{ conversation_id := freshId, user_id := A, is_admin := true },
         { conversation_id := freshId, user_id := B, is_admin := false }] := by
    rw [memberRowsFor, hdedup]
    simp [hAA, hBAf]
  have hcreate : createConversation db A [B] false none freshId now true true
      = (CreateResult.ok freshId,
         { conversations := db.conversations ++ [{ id := freshId, is_group := false, name := none, created_by := some A, updated_at := now }],
           members := db.members ++ [{ conversation_id := freshId, user_id := A, is_admin := true }, { conversation_id := freshId, user_id := B, is_admin := false }] }) := by
    rw [createConversation]
    simp [hrows]
  have hmain : ∀ (u : Nat) (mr : MemberRow),
      mr ∈ (createConversation db A [B] false none freshId now true true).2.members →
      mr.user_id = u → mr.conversation_id = freshId →
      (fetchConversations (createConversation db A [B] false none freshId now true true).2 u).head?
        = some { id := freshId, is_group := false, name := none, created_by := some A, updated_at := now } := by
    intro u mr hmr hmru hmrc
    rw [fetchConversations]
    have hx : ({ id := freshId, is_group := false, name := none, created_by := some A, updated_at := now } : ConvRow) ∈
        (createConversation db A [B] false none freshId now true true).2.conversations.filter
          (fun c => decide (c.id ∈ userConvIds (createConversation db A [B] false none freshId now true true).2 u)) := by
      apply List.mem_filter.mpr
      constructor
      · rw [hcreate]
        exact List.mem_append_right _ (List.mem_cons_self _ _)
      · apply decide_eq_true
        rw [userConvIds]
        exact List.mem_map.mpr
          ⟨mr, List.mem_filter.mpr ⟨hmr, by simp [hmru]⟩, hmrc⟩
    have hmax : ∀ y ∈
        (createConversation db A [B] false none freshId now true true).2.conversations.filter
          (fun c => decide (c.id ∈ userConvIds (createConversation db A [B] false none freshId now true true).2 u)),
        y ≠ ({ id := freshId, is_group := false, name := none, created_by := some A, updated_at := now } : ConvRow) →
        y.updated_at < now := by
      intro y hy hne
      have hy1 := (List.mem_filter.mp hy).1
      rw [hcreate] at hy1
      rcases List.mem_append.mp hy1 with h | h
      · exact hnow y h
      · exact absurd (List.mem_singleton.mp h) hne
    exact head_sortByDesc (fun c : ConvRow => c.updated_at) _ _ hx hmax
  refine ⟨?_, ?_, ?_, ?_, ?_⟩
  · rw [hcreate]
  · rw [hcreate]
  · rw [hcreate]
  · apply hmain A { conversation_id := freshId, user_id := A, is_admin := true }
    · rw [hcreate]
      exact List.mem_append_right _ (List.mem_cons_self _ _)
    · rfl
    · rfl
  · apply hmain B { conversation_id := freshId, user_id := B, is_admin := false }
    · rw [hcreate]
      exact List.mem_append_right _
        (List.mem_cons_of_mem _ (List.mem_cons_self _ _))
    · rfl
    · rfl

/-- C1 witness: with one older conversation in the database, user 1
creates a one-to-one conversation with user 2 and it sorts first in both
lists. -/
theorem C1_one_to_one_conversation_witness :
    ((1 : Nat) ≠ 2) ∧
    (∀ c ∈ ({ conversations := [{ id := 0, is_group := false, name := none, created_by := some 1, updated_at := 3 }], members := [{ conversation_id := 0, user_id := 1, is_admin := true }, { conversation_id := 0, user_id := 2, is_admin := false }] } : ConvDB).conversations, c.updated_at < 9) ∧
    ((fetchConversations (createConversation { conversations := [{ id := 0, is_group := false, name := none, created_by := some 1, updated_at := 3 }], members := [{ conversation_id := 0, user_id := 1, is_admin := true }, { conversation_id := 0, user_id := 2, is_admin := false }] } 1 [2] false none 7 9 true true).2 1).head?
        = some { id := 7, is_group := false, name := none, created_by := some 1, updated_at := 9 } ∧
     (fetchConversations (createConversation { conversations := [{ id := 0, is_group := false, name := none, created_by := some 1, updated_at := 3 }], members := [{ conversation_id := 0, user_id := 1, is_admin := true }, { conversation_id := 0, user_id := 2, is_admin := false }] } 1 [2] false none 7 9 true true).2 2).head?
        = some { id := 7, is_group := false, name := none, created_by := some 1, updated_at := 9 }) := by
  refine ⟨by decide, by decide, ?_, ?_⟩
  · exact (C1_one_to_one_conversation
      { conversations := [{ id := 0, is_group := false, name := none, created_by := some 1, updated_at := 3 }],
        members := [{ conversation_id := 0, user_id := 1, is_admin := true }, { conversation_id := 0, user_id := 2, is_admin := false }] }
      1 2 7 9 (by decide) (by decide)).2.2.2.1
  · exact (C1_one_to_one_conversation
      { conversations := [{ id := 0, is_group := false, name := none, created_by := some 1, updated_at := 3 }],
        members := [{ conversation_id := 0, user_id := 1, is_admin := true }, { conversation_id := 0, user_id := 2, is_admin := false }] }
      1 2 7 9 (by decide) (by decide)).2.2.2.2
